import Mathlib

/-!
# A shallow embedding of the `fsm` package (finite state machine engine)

This file embeds the transition engine of the `fsm` Go package:
the transition table, the callback registry, the per-call transition
context (`cancelTransition`), the four callback phases
(`beforeEventCallbacks`, `leaveStateCallbacks`, `enterStateCallbacks`,
`afterEventCallbacks`), the `Event` protocol, the default transitioner
(`defaultTransitioner.Transition`, surfaced as `Transition`/`Complete`),
and the auxiliary operations `Can` and `State`.

Modelling decisions (all from the source):
* States and events are opaque comparable identifiers; we take two type
  parameters `E` and `S` with decidable equality.
* Go errors are modelled by the inductive `Err`, with one constructor per
  error kind defined by the package plus `Err.user n` for arbitrary
  caller-supplied errors.  `nil` errors are `Option.none`.
* A callback (`TransitionFunc`) receives the transition context and may
  only act on it through the exposed contract: call `Cancel()`, call
  `SetAsync()`, and return an error.  It is therefore modelled as a
  function from the context to a record of those three effects
  (`CbRes`).  The caller-supplied argument list never influences the
  engine's control flow (it is merely stored on the context), so it is
  omitted from the context record.
* The single Go map `callbacks : map[cKey]TransitionFunc` is keyed by a
  pair (target, callbackType) where the callbackType tag decides whether
  the target is an event or a state; it is represented here by four
  lookup functions, one per callback type.
* The pending asynchronous transition `f.transition` is a closure that
  captures the destination and the (shared, mutable) context; it is
  modelled by `pending : Option (S × Ctx E S)` holding the captured
  destination and the context's value at suspension time.  The Go code
  assigns `f.transition` before running the leave callbacks; since
  callbacks only receive the context and cannot observe the machine, the
  model stages the pending pair at the points where it is consulted.
* To let us state which callbacks were invoked, every operation also
  returns the ordered list of callback invocations (`CbTag`).  This is a
  ghost trace; it does not influence any computed result.
-/

/-- The callback invocation labels: one per (phase, specific/generic) slot. -/
inductive CbTag where
  | beforeSpec
  | beforeGen
  | leaveSpec
  | leaveGen
  | enterSpec
  | enterGen
  | afterSpec
  | afterGen
  deriving DecidableEq, Repr

/-- Errors produced by the engine or returned by callbacks.
`canceled` is the `Canceled` sentinel; `user n` stands for arbitrary
caller-created errors; the remaining constructors are the error types
declared by the package (`InTransitionError`, `InvalidEventError`,
`UnknownEventError`, `NoTransitionError`, `AsyncError`,
`NotInTransitionError`, `InternalError`). -/
inductive Err (E S : Type) where
  | canceled
  | user (n : Nat)
  | inTransition (ev : E)
  | invalidEvent (ev : E) (st : S)
  | unknownEvent (ev : E)
  | noTransition (inner : Option (Err E S))
  | asyncSuspended (inner : Option (Err E S))
  | notInTransition
  | internal

/-- The Go code compares an error against the `Canceled` sentinel variable
(`err == Canceled`); this is that comparison. -/
def Err.isCanceled : Err E S → Bool
  | Err.canceled => true
  | _ => false

/-- The transition context passed to callbacks (`cancelTransition` in the
source): the event, source and destination of the attempted transition,
the error slot written by `Cancel()` (first write wins), and the sticky
async flag set by `SetAsync()`. -/
structure Ctx (E S : Type) where
  event : E
  src : S
  dst : S
  err : Option (Err E S)
  async : Bool

/-- What one callback invocation did: whether it called `Cancel()`,
whether it called `SetAsync()`, and the error value it returned. -/
structure CbRes (E S : Type) where
  doCancel : Bool
  doSetAsync : Bool
  ret : Option (Err E S)

/-- A callback: reads the context, and is summarised by its effects. -/
def TransitionFunc (E S : Type) : Type := Ctx E S → CbRes E S

/-- `cancelTransition.Cancel`: sets the error to the `Canceled` sentinel
unless an error is already set (`cancel` returns early when `c.err != nil`). -/
def Ctx.cancel (c : Ctx E S) : Ctx E S :=
  match c.err with
  | some _ => c
  | none => { c with err := some Err.canceled }

/-- Run one callback on the context: apply its `Cancel()`/`SetAsync()`
effects and pair the updated context with the returned error. -/
def runCb (fn : TransitionFunc E S) (c : Ctx E S) : Ctx E S × Option (Err E S) :=
  let r := fn c
  let c1 := if r.doCancel then c.cancel else c
  let c2 := if r.doSetAsync then { c1 with async := true } else c1
  (c2, r.ret)

/-- The state machine (`EventTypeStateTypeFiniteStateMachine`).
`beforeEventG`/`leaveStateG`/`enterStateG`/`afterEventG` are the four
engine-wide generic callback fields (`BeforeEvent`, `LeaveState`,
`EnterState`, `AfterEvent`); `beforeC`/`leaveC`/`enterC`/`afterC` are
the four sections of the `callbacks` map, split by `callbackType`;
`transitions` is the transition table keyed by (event, source);
`pending` models the `transition` closure (captured destination and
context), non-`none` exactly when an async transition is staged. -/
structure FSM (E S : Type) where
  beforeEventG : Option (TransitionFunc E S)
  leaveStateG : Option (TransitionFunc E S)
  enterStateG : Option (TransitionFunc E S)
  afterEventG : Option (TransitionFunc E S)
  current : S
  transitions : List ((E × S) × S)
  beforeC : E → Option (TransitionFunc E S)
  leaveC : S → Option (TransitionFunc E S)
  enterC : S → Option (TransitionFunc E S)
  afterC : E → Option (TransitionFunc E S)
  pending : Option (S × Ctx E S)

variable {E S : Type}

/-- Table lookup `f.transitions[eKey{event, src}]`. -/
def lookupTrans [DecidableEq E] [DecidableEq S] (ts : List ((E × S) × S)) (k : E × S) : Option S :=
  (ts.find? (fun p => decide (p.1 = k))).map (·.2)

/-- `for ekey := range f.transitions { if ekey.event == event ... }`:
does any table key mention this event (for any source state)? -/
def hasEvent [DecidableEq E] (f : FSM E S) (ev : E) : Bool :=
  f.transitions.any (fun p => decide (p.1.1 = ev))

/-- The fresh context created by `Event` (`new(cancelTransition)` plus the
field assignments). -/
def mkCtx (ev : E) (src dst : S) : Ctx E S :=
  { event := ev, src := src, dst := dst, err := none, async := false }

/-- The generic half of `beforeEventCallbacks`: run `f.BeforeEvent` when
set; a function-returned error, then a context error, each short-circuit. -/
def beforeGeneric (f : FSM E S) (t : Ctx E S) (tr : List CbTag) :
    Ctx E S × Option (Err E S) × List CbTag :=
  match f.beforeEventG with
  | none => (t, none, tr)
  | some fn =>
      match runCb fn t with
      | (t1, some e) => (t1, some e, tr ++ [CbTag.beforeGen])
      | (t1, none) =>
          match t1.err with
          | some e => (t1, some e, tr ++ [CbTag.beforeGen])
          | none => (t1, none, tr ++ [CbTag.beforeGen])

/-- `beforeEventCallbacks`: the callback specific to the event, then the
generic one; after each, a returned error and then `t.Err()` short-circuit. -/
def beforePhase (f : FSM E S) (t : Ctx E S) :
    Ctx E S × Option (Err E S) × List CbTag :=
  match f.beforeC t.event with
  | none => beforeGeneric f t []
  | some fn =>
      match runCb fn t with
      | (t1, some e) => (t1, some e, [CbTag.beforeSpec])
      | (t1, none) =>
          match t1.err with
          | some e => (t1, some e, [CbTag.beforeSpec])
          | none => beforeGeneric f t1 [CbTag.beforeSpec]

/-- The generic half of `leaveStateCallbacks`: run `f.LeaveState` when set;
a returned error, `t.Err()`, then the async flag each short-circuit
(`AsyncError{t.Err()}` wraps `nil` since `t.Err()` was checked first). -/
def leaveGeneric (f : FSM E S) (t : Ctx E S) (tr : List CbTag) :
    Ctx E S × Option (Err E S) × List CbTag :=
  match f.leaveStateG with
  | none => (t, none, tr)
  | some fn =>
      match runCb fn t with
      | (t1, some e) => (t1, some e, tr ++ [CbTag.leaveGen])
      | (t1, none) =>
          match t1.err with
          | some e => (t1, some e, tr ++ [CbTag.leaveGen])
          | none =>
              if t1.async then (t1, some (Err.asyncSuspended none), tr ++ [CbTag.leaveGen])
              else (t1, none, tr ++ [CbTag.leaveGen])

/-- `leaveStateCallbacks`: the callback keyed by the current state, then
the generic one; after each, a returned error, `t.Err()`, and the async
flag short-circuit in that order. -/
def leavePhase (f : FSM E S) (t : Ctx E S) :
    Ctx E S × Option (Err E S) × List CbTag :=
  match f.leaveC f.current with
  | none => leaveGeneric f t []
  | some fn =>
      match runCb fn t with
      | (t1, some e) => (t1, some e, [CbTag.leaveSpec])
      | (t1, none) =>
          match t1.err with
          | some e => (t1, some e, [CbTag.leaveSpec])
          | none =>
              if t1.async then (t1, some (Err.asyncSuspended none), [CbTag.leaveSpec])
              else leaveGeneric f t1 [CbTag.leaveSpec]

/-- The generic half of `enterStateCallbacks`: only a function-returned
error short-circuits. -/
def enterGeneric (f : FSM E S) (t : Ctx E S) (tr : List CbTag) :
    Ctx E S × Option (Err E S) × List CbTag :=
  match f.enterStateG with
  | none => (t, none, tr)
  | some fn =>
      match runCb fn t with
      | (t1, some e) => (t1, some e, tr ++ [CbTag.enterGen])
      | (t1, none) => (t1, none, tr ++ [CbTag.enterGen])

/-- `enterStateCallbacks`: the callback keyed by the (already updated)
current state, then the generic one; only returned errors short-circuit. -/
def enterPhase (f : FSM E S) (t : Ctx E S) :
    Ctx E S × Option (Err E S) × List CbTag :=
  match f.enterC f.current with
  | none => enterGeneric f t []
  | some fn =>
      match runCb fn t with
      | (t1, some e) => (t1, some e, [CbTag.enterSpec])
      | (t1, none) => enterGeneric f t1 [CbTag.enterSpec]

/-- The generic half of `afterEventCallbacks`. -/
def afterGeneric (f : FSM E S) (t : Ctx E S) (tr : List CbTag) :
    Ctx E S × Option (Err E S) × List CbTag :=
  match f.afterEventG with
  | none => (t, none, tr)
  | some fn =>
      match runCb fn t with
      | (t1, some e) => (t1, some e, tr ++ [CbTag.afterGen])
      | (t1, none) => (t1, none, tr ++ [CbTag.afterGen])

/-- `afterEventCallbacks`: the callback keyed by the event, then the
generic one; only returned errors short-circuit. -/
def afterPhase (f : FSM E S) (t : Ctx E S) :
    Ctx E S × Option (Err E S) × List CbTag :=
  match f.afterC t.event with
  | none => afterGeneric f t []
  | some fn =>
      match runCb fn t with
      | (t1, some e) => (t1, some e, [CbTag.afterSpec])
      | (t1, none) => afterGeneric f t1 [CbTag.afterSpec]

/-- The body of the closure stored in `f.transition`: commit the captured
destination as current state, then run the enter-state and after-event
phases; a returned error short-circuits and is the closure's result.
Returns the machine, the closure's error result, the (shared) context
after the callbacks, and the invocation trace. -/
def transitionClosure (dst : S) (t : Ctx E S) (f : FSM E S) :
    FSM E S × Option (Err E S) × Ctx E S × List CbTag :=
  let f1 := { f with current := dst }
  match enterPhase f1 t with
  | (t1, some e, trE) => (f1, some e, t1, trE)
  | (t1, none, trE) =>
      match afterPhase f1 t1 with
      | (t2, some e, trA) => (f1, some e, t2, trE ++ trA)
      | (t2, none, trA) => (f1, none, t2, trE ++ trA)

/-- `defaultTransitioner.Transition` (the transitioner `NewFSM` installs):
with nothing staged it fails with `NotInTransitionError`; otherwise it
runs the staged closure — discarding the closure's return value — clears
the pending marker, and returns `nil`.  The third component is the
context after the closure ran (`Event` reads `t.Err()` from it on the
synchronous path). -/
def transitionerTransition (f : FSM E S) :
    FSM E S × Option (Err E S) × Option (Ctx E S) × List CbTag :=
  match f.pending with
  | none => (f, some Err.notInTransition, none, [])
  | some (dst, t) =>
      match transitionClosure dst t f with
      | (f1, _discarded, t1, tr) => ({ f1 with pending := none }, none, some t1, tr)

/-- `FSM.Transition` (the public completion call, `Complete()` in the
spec): forwards to the transitioner. -/
def complete (f : FSM E S) : FSM E S × Option (Err E S) × List CbTag :=
  match transitionerTransition f with
  | (f1, e, _, tr) => (f1, e, tr)

/-- The continuation of `Event` once the table lookup has produced a
destination: `before` phase, then either the self-transition
short-circuit (`after` phase, `NoTransitionError`), or the `leave` phase
followed by the synchronous call to the transitioner (whose `nil` result
makes `Event` return `t.Err()`); on a leave-phase error, the staged
transition is cleared only when the error is the `Canceled` sentinel. -/
def fireFound [DecidableEq S] (f : FSM E S) (ev : E) (dst : S) :
    FSM E S × Option (Err E S) × List CbTag :=
  match beforePhase f (mkCtx ev f.current dst) with
  | (_, some e, trB) => (f, some e, trB)
  | (t1, none, trB) =>
      if f.current = dst then
        match afterPhase f t1 with
        | (_, some e, trA) => (f, some (Err.noTransition (some e)), trB ++ trA)
        | (t2, none, trA) => (f, some (Err.noTransition t2.err), trB ++ trA)
      else
        match leavePhase f t1 with
        | (t2, some e, trL) =>
            if e.isCanceled then (f, some e, trB ++ trL)
            else ({ f with pending := some (dst, t2) }, some e, trB ++ trL)
        | (t2, none, trL) =>
            match transitionerTransition { f with pending := some (dst, t2) } with
            | (f2, some e, _, trT) => (f2, some e, trB ++ trL ++ trT)
            | (f2, none, some t3, trT) => (f2, t3.err, trB ++ trL ++ trT)
            | (f2, none, none, trT) => (f2, none, trB ++ trL ++ trT)

/-- `FSM.Event`: reject when a transition is pending; look the event up in
the table, distinguishing "valid for some other state" from "unknown";
otherwise run the callback protocol via `fireFound`. -/
def fireEvent [DecidableEq E] [DecidableEq S] (f : FSM E S) (ev : E) : FSM E S × Option (Err E S) × List CbTag :=
  if f.pending.isSome then (f, some (Err.inTransition ev), [])
  else
    match lookupTrans f.transitions (ev, f.current) with
    | none =>
        if hasEvent f ev then (f, some (Err.invalidEvent ev f.current), [])
        else (f, some (Err.unknownEvent ev), [])
    | some dst => fireFound f ev dst

/-- `FSM.Can`: the table has an entry for (event, current state) and no
transition is pending (`ok && (f.transition == nil)`). -/
def can [DecidableEq E] [DecidableEq S] (f : FSM E S) (ev : E) : Bool :=
  (lookupTrans f.transitions (ev, f.current)).isSome && f.pending.isNone

/-- `FSM.State`: overwrite the current state; nothing else is touched. -/
def setState (f : FSM E S) (s : S) : FSM E S :=
  { f with current := s }

/-!
## Concrete machines

Small concrete instances over `E = S = Nat`, used to evaluate the engine
at specific inputs.  `baseFSM` has the single transition
(event 0, state 0) → state 1 and no callbacks; the others override one
callback slot each.
-/

/-- An empty callback map. -/
def noCbMap : Nat → Option (TransitionFunc Nat Nat) := fun _ => none

/-- A machine in state 0 with the single transition (event 0, 0) → 1 and
no callbacks. -/
def baseFSM : FSM Nat Nat where
  beforeEventG := none
  leaveStateG := none
  enterStateG := none
  afterEventG := none
  current := 0
  transitions := [((0, 0), 1)]
  beforeC := noCbMap
  leaveC := noCbMap
  enterC := noCbMap
  afterC := noCbMap
  pending := none

/-- `baseFSM` with an async transition to state 1 already staged. -/
def pendingFSM : FSM Nat Nat :=
  { baseFSM with pending := some (1, mkCtx 0 0 1) }

/-- `baseFSM` plus a leave-state callback on state 0 that returns the
custom error `user 5` (and neither cancels nor suspends). -/
def leaveErrFSM : FSM Nat Nat :=
  { baseFSM with
      leaveC := fun s =>
        if s = 0 then some (fun _ => ⟨false, false, some (Err.user 5)⟩) else none }

/-- `baseFSM` plus an after-event callback on event 0 that returns the
custom error `user 7`.  This is the situation of `TestCallbackError`. -/
def afterErrFSM : FSM Nat Nat :=
  { baseFSM with
      afterC := fun e =>
        if e = 0 then some (fun _ => ⟨false, false, some (Err.user 7)⟩) else none }

/-- `baseFSM` plus a leave-state callback on state 0 that calls
`SetAsync()` and returns `nil`, and a generic leave-state callback that
does nothing. -/
def asyncFSM : FSM Nat Nat :=
  { baseFSM with
      leaveC := fun s =>
        if s = 0 then some (fun _ => ⟨false, true, none⟩) else none,
      leaveStateG := some (fun _ => ⟨false, false, none⟩) }

/-- `baseFSM` plus a before-event callback on event 0 that calls
`Cancel()` and returns the custom error `user 3`. -/
def cancelErrFSM : FSM Nat Nat :=
  { baseFSM with
      beforeC := fun e =>
        if e = 0 then some (fun _ => ⟨true, false, some (Err.user 3)⟩) else none }

/-- A machine whose only transition is the self-transition
(event 0, state 0) → state 0, with an after-event callback returning
`user 9`. -/
def selfFSM : FSM Nat Nat :=
  { baseFSM with
      transitions := [((0, 0), 0)],
      afterC := fun e =>
        if e = 0 then some (fun _ => ⟨false, false, some (Err.user 9)⟩) else none }

/-- The error a `NoTransitionError` wraps: the after-event phase's
returned error if any, otherwise the context's error. -/
def afterOrCtxErr (r : Ctx E S × Option (Err E S) × List CbTag) : Option (Err E S) :=
  match r.2.1 with
  | some e => some e
  | none => r.1.err

/-!
## Helper lemmas
-/

/-- The closure always commits the captured destination, whatever the
enter/after callbacks do. -/
theorem transitionClosure_fst (dst : S) (t : Ctx E S) (f : FSM E S) :
    (transitionClosure dst t f).1 = { f with current := dst } := by
  unfold transitionClosure
  rcases henter : enterPhase { f with current := dst } t with ⟨t1, e1, tr1⟩
  rcases e1 with _ | e1
  · rcases hafter : afterPhase { f with current := dst } t1 with ⟨t2, e2, tr2⟩
    rcases e2 with _ | e2 <;> simp [henter, hafter]
  · simp [henter]

/-- `Transition` with nothing staged: `NotInTransitionError`, machine
untouched. -/
theorem transitionerTransition_none {f : FSM E S} (h : f.pending = none) :
    transitionerTransition f = (f, some Err.notInTransition, none, []) := by
  unfold transitionerTransition
  simp [h]

/-- `Transition` with a staged pair: commits the captured destination,
clears the pending marker, and returns `nil` (the closure's own result
is discarded). -/
theorem transitionerTransition_some {f : FSM E S} {dst : S} {t : Ctx E S}
    (h : f.pending = some (dst, t)) :
    (transitionerTransition f).1.current = dst ∧
      (transitionerTransition f).1.pending = none ∧
      (transitionerTransition f).2.1 = none := by
  unfold transitionerTransition
  rcases hc : transitionClosure dst t f with ⟨f1, ed, t1, tr⟩
  have hf1 : f1 = { f with current := dst } := by
    have := transitionClosure_fst dst t f
    rw [hc] at this
    exact this
  simp [h, hc, hf1]

/-- `Complete` with a staged pair: returns `nil`, state is the captured
destination, pending cleared. -/
theorem complete_some {f : FSM E S} {dst : S} {t : Ctx E S}
    (h : f.pending = some (dst, t)) :
    (complete f).2.1 = none ∧ (complete f).1.current = dst ∧
      (complete f).1.pending = none := by
  unfold complete
  rcases ht : transitionerTransition f with ⟨f1, e1, c1, tr1⟩
  have h3 := transitionerTransition_some h
  rw [ht] at h3
  simpa using ⟨h3.2.2, h3.1, h3.2.1⟩

/-- The generic before slot only ever appends the `beforeGen` tag. -/
theorem beforeGeneric_tags (f : FSM E S) (t : Ctx E S) (tr : List CbTag) :
    ∀ c ∈ (beforeGeneric f t tr).2.2, c ∈ tr ∨ c = CbTag.beforeGen := by
  intro c hc
  unfold beforeGeneric at hc
  split at hc
  · exact Or.inl hc
  · split at hc
    · simp at hc; tauto
    · split at hc <;> (simp at hc; tauto)

/-- The before phase only runs before callbacks. -/
theorem beforePhase_tags (f : FSM E S) (t : Ctx E S) :
    ∀ c ∈ (beforePhase f t).2.2, c = CbTag.beforeSpec ∨ c = CbTag.beforeGen := by
  intro c hc
  unfold beforePhase at hc
  split at hc
  · rcases beforeGeneric_tags _ _ _ c hc with h | h
    · simp at h
    · exact Or.inr h
  · split at hc
    · simp at hc; exact Or.inl hc
    · split at hc
      · simp at hc; exact Or.inl hc
      · rcases beforeGeneric_tags _ _ _ c hc with h | h
        · simp at h; exact Or.inl h
        · exact Or.inr h

/-- The generic after slot only ever appends the `afterGen` tag. -/
theorem afterGeneric_tags (f : FSM E S) (t : Ctx E S) (tr : List CbTag) :
    ∀ c ∈ (afterGeneric f t tr).2.2, c ∈ tr ∨ c = CbTag.afterGen := by
  intro c hc
  unfold afterGeneric at hc
  split at hc
  · exact Or.inl hc
  · split at hc <;> (simp at hc; tauto)

/-- The after phase only runs after callbacks. -/
theorem afterPhase_tags (f : FSM E S) (t : Ctx E S) :
    ∀ c ∈ (afterPhase f t).2.2, c = CbTag.afterSpec ∨ c = CbTag.afterGen := by
  intro c hc
  unfold afterPhase at hc
  split at hc
  · rcases afterGeneric_tags _ _ _ c hc with h | h
    · simp at h
    · exact Or.inr h
  · split at hc
    · simp at hc; exact Or.inl hc
    · rcases afterGeneric_tags _ _ _ c hc with h | h
      · simp at h; exact Or.inl h
      · exact Or.inr h

/-- With no pending transition and a successful table lookup, `Event`
proceeds to the callback protocol. -/
theorem fireEvent_found [DecidableEq E] [DecidableEq S] {f : FSM E S} {ev : E} {dst : S}
    (h1 : f.pending = none) (h2 : lookupTrans f.transitions (ev, f.current) = some dst) :
    fireEvent f ev = fireFound f ev dst := by
  unfold fireEvent
  simp [h1, h2]

/-- With a transition pending, `Event` rejects immediately. -/
theorem fireEvent_pending [DecidableEq E] [DecidableEq S] {f : FSM E S} {ev : E}
    (h : f.pending.isSome = true) :
    fireEvent f ev = (f, some (Err.inTransition ev), []) := by
  unfold fireEvent
  simp [h]

/-!
## Claims
-/

/-- C4: whenever an async transition is pending, `Can` returns false for
every event, and `Event` for every event — whether or not it exists in
the table — returns `InTransitionError` naming the requested event,
with no callbacks run (empty trace) and the machine untouched. -/
theorem c4_pending_blocks_all_events [DecidableEq E] [DecidableEq S]
    (f : FSM E S) (ev : E) (h : f.pending.isSome = true) :
    can f ev = false ∧ fireEvent f ev = (f, some (Err.inTransition ev), []) := by
  constructor
  · unfold can
    rcases hp : f.pending with _ | p
    · rw [hp] at h; simp at h
    · simp [hp]
  · unfold fireEvent
    simp [h]

/-- Witness for C4 at a concrete pending machine and an event with no
table entry at all. -/
theorem c4_pending_blocks_all_events_witness :
    can pendingFSM 5 = false ∧
      fireEvent pendingFSM 5 = (pendingFSM, some (Err.inTransition 5), []) :=
  c4_pending_blocks_all_events pendingFSM 5 rfl

/-- C8: with nothing pending and no table entry for (event, current
state): if some other state has an entry for the event, `Event` fails
with `InvalidEventError` carrying the event and the current state;
otherwise it fails with `UnknownEventError`; in both cases no callbacks
run and the machine is untouched. -/
theorem c8_invalid_or_unknown_event [DecidableEq E] [DecidableEq S]
    (f : FSM E S) (ev : E) (h1 : f.pending = none)
    (h2 : lookupTrans f.transitions (ev, f.current) = none) :
    (hasEvent f ev = true →
        fireEvent f ev = (f, some (Err.invalidEvent ev f.current), [])) ∧
      (hasEvent f ev = false →
        fireEvent f ev = (f, some (Err.unknownEvent ev), [])) := by
  constructor <;> intro hh <;> unfold fireEvent <;> simp [h1, h2, hh]

/-- Witness for C8: event 0 fired from state 2 (only state 0 has an
entry for it) is invalid; event 5 is unknown. -/
theorem c8_invalid_or_unknown_event_witness :
    fireEvent (setState baseFSM 2) 0 =
        (setState baseFSM 2, some (Err.invalidEvent 0 2), []) ∧
      fireEvent baseFSM 5 = (baseFSM, some (Err.unknownEvent 5), []) :=
  ⟨(c8_invalid_or_unknown_event (setState baseFSM 2) 0 rfl (by rfl)).1 rfl,
   (c8_invalid_or_unknown_event baseFSM 5 rfl (by rfl)).2 rfl⟩

/-- C9: `Complete` (the public `Transition` call) with nothing pending
returns `NotInTransitionError` and leaves the machine untouched, and
the same holds for a repeated call. -/
theorem c9_complete_nothing_pending (f : FSM E S) (h : f.pending = none) :
    complete f = (f, some Err.notInTransition, []) ∧
      complete (complete f).1 = (f, some Err.notInTransition, []) := by
  have h1 : complete f = (f, some Err.notInTransition, []) := by
    unfold complete
    rw [transitionerTransition_none h]
  refine ⟨h1, ?_⟩
  have h2 : (complete f).1 = f := by rw [h1]
  rw [h2]
  exact h1

/-- Witness for C9 at a concrete machine with nothing pending. -/
theorem c9_complete_nothing_pending_witness :
    complete baseFSM = (baseFSM, some Err.notInTransition, []) ∧
      complete (complete baseFSM).1 = (baseFSM, some Err.notInTransition, []) :=
  c9_complete_nothing_pending baseFSM rfl

/-- C10: `State(s)` overwrites the current state without clearing the
pending-transition marker: with a transition staged, every later `Event`
still fails with `InTransitionError`, and a later `Complete` returns nil
and commits the previously staged destination, overwriting `s`. -/
theorem c10_setState_keeps_pending [DecidableEq E] [DecidableEq S]
    (f : FSM E S) (dst : S) (t : Ctx E S) (s : S) (ev : E)
    (h : f.pending = some (dst, t)) :
    (setState f s).current = s ∧
      (setState f s).pending = some (dst, t) ∧
      fireEvent (setState f s) ev =
        (setState f s, some (Err.inTransition ev), []) ∧
      (complete (setState f s)).2.1 = none ∧
      (complete (setState f s)).1.current = dst ∧
      (complete (setState f s)).1.pending = none := by
  have hp : (setState f s).pending = some (dst, t) := by simp [setState, h]
  refine ⟨rfl, hp, ?_, (complete_some hp).1, (complete_some hp).2.1,
    (complete_some hp).2.2⟩
  unfold fireEvent
  simp [hp]

/-- Witness for C10: state 9 is forced while the transition to 1 is
staged; `Event` is still rejected and `Complete` commits 1 over 9. -/
theorem c10_setState_keeps_pending_witness :
    (setState pendingFSM 9).current = 9 ∧
      (setState pendingFSM 9).pending = some (1, mkCtx 0 0 1) ∧
      fireEvent (setState pendingFSM 9) 0 =
        (setState pendingFSM 9, some (Err.inTransition 0), []) ∧
      (complete (setState pendingFSM 9)).2.1 = none ∧
      (complete (setState pendingFSM 9)).1.current = 1 ∧
      (complete (setState pendingFSM 9)).1.pending = none :=
  c10_setState_keeps_pending pendingFSM 1 (mkCtx 0 0 1) 9 0 rfl

/-- C7: a before-event callback that calls `Cancel()` and itself returns
an error `e` makes `Event` return exactly `e` (the function-returned
error wins over the cancellation sentinel), with the machine untouched
and only that callback run. -/
theorem c7_cancel_then_custom_error [DecidableEq E] [DecidableEq S]
    (f : FSM E S) (ev : E) (dst : S) (fn : TransitionFunc E S) (e : Err E S)
    (h1 : f.pending = none)
    (h2 : lookupTrans f.transitions (ev, f.current) = some dst)
    (h3 : f.beforeC ev = some fn)
    (_h4 : (fn (mkCtx ev f.current dst)).doCancel = true)
    (h5 : (fn (mkCtx ev f.current dst)).ret = some e) :
    fireEvent f ev = (f, some e, [CbTag.beforeSpec]) := by
  have hb : beforePhase f (mkCtx ev f.current dst) =
      ((runCb fn (mkCtx ev f.current dst)).1, some e, [CbTag.beforeSpec]) := by
    unfold beforePhase
    have hev : (mkCtx ev f.current dst).event = ev := rfl
    rw [hev, h3]
    have h2' : (runCb fn (mkCtx ev f.current dst)).2 = some e := by
      simp [runCb, h5]
    rcases hr : runCb fn (mkCtx ev f.current dst) with ⟨t1, r⟩
    rw [hr] at h2'
    subst h2'
    simp [hr]
  rw [fireEvent_found h1 h2]
  unfold fireFound
  rw [hb]

/-- Witness for C7: the before callback cancels and returns `user 3`;
`Event` returns `user 3`, not the sentinel. -/
theorem c7_cancel_then_custom_error_witness :
    fireEvent cancelErrFSM 0 = (cancelErrFSM, some (Err.user 3), [CbTag.beforeSpec]) :=
  c7_cancel_then_custom_error cancelErrFSM 0 1
    (fun _ => ⟨true, false, some (Err.user 3)⟩) (Err.user 3) rfl (by rfl) (by rfl) rfl rfl

/-- C6: a transition whose looked-up destination equals the current state
and whose before phase produced no error returns a `NoTransitionError`
wrapping the after phase's error (or, failing that, the context's error),
leaves the machine untouched, and never runs a leave or enter callback. -/
theorem c6_self_transition_no_op [DecidableEq E] [DecidableEq S]
    (f : FSM E S) (ev : E) (t1 : Ctx E S) (trB : List CbTag)
    (h1 : f.pending = none)
    (h2 : lookupTrans f.transitions (ev, f.current) = some f.current)
    (h3 : beforePhase f (mkCtx ev f.current f.current) = (t1, none, trB)) :
    (fireEvent f ev).1 = f ∧
      (fireEvent f ev).2.1 =
        some (Err.noTransition (afterOrCtxErr (afterPhase f t1))) ∧
      (fireEvent f ev).2.2 = trB ++ (afterPhase f t1).2.2 ∧
      CbTag.leaveSpec ∉ (fireEvent f ev).2.2 ∧
      CbTag.leaveGen ∉ (fireEvent f ev).2.2 ∧
      CbTag.enterSpec ∉ (fireEvent f ev).2.2 ∧
      CbTag.enterGen ∉ (fireEvent f ev).2.2 := by
  rcases ha : afterPhase f t1 with ⟨t2, ea, trA⟩
  have hfe : fireEvent f ev =
      (f, some (Err.noTransition (afterOrCtxErr (afterPhase f t1))),
        trB ++ trA) := by
    rw [fireEvent_found h1 h2]
    unfold fireFound
    rw [h3]
    simp only [if_pos rfl]
    rw [ha]
    rcases ea with _ | e <;> simp [afterOrCtxErr, ha]
  have htr : (fireEvent f ev).2.2 = trB ++ trA := by rw [hfe]
  have hmem : ∀ c ∈ trB ++ trA,
      c = CbTag.beforeSpec ∨ c = CbTag.beforeGen ∨
        c = CbTag.afterSpec ∨ c = CbTag.afterGen := by
    intro c hc
    rcases List.mem_append.mp hc with h | h
    · have := beforePhase_tags f (mkCtx ev f.current f.current) c (by rw [h3]; exact h)
      tauto
    · have := afterPhase_tags f t1 c (by rw [ha]; exact h)
      tauto
  refine ⟨by rw [hfe], by rw [hfe, ha], by rw [hfe, ha], ?_, ?_, ?_, ?_⟩ <;>
    (rw [htr]; intro hmem2; rcases hmem _ hmem2 with h | h | h | h <;> simp_all)

/-- Witness for C6: the self-transition machine with an after callback
returning `user 9`; the result wraps that error and only before/after
slots could have run. -/
theorem c6_self_transition_no_op_witness :
    (fireEvent selfFSM 0).1 = selfFSM ∧
      (fireEvent selfFSM 0).2.1 =
        some (Err.noTransition (afterOrCtxErr (afterPhase selfFSM (mkCtx 0 0 0)))) ∧
      (fireEvent selfFSM 0).2.2 = [] ++ (afterPhase selfFSM (mkCtx 0 0 0)).2.2 ∧
      CbTag.leaveSpec ∉ (fireEvent selfFSM 0).2.2 ∧
      CbTag.leaveGen ∉ (fireEvent selfFSM 0).2.2 ∧
      CbTag.enterSpec ∉ (fireEvent selfFSM 0).2.2 ∧
      CbTag.enterGen ∉ (fireEvent selfFSM 0).2.2 :=
  c6_self_transition_no_op selfFSM 0 (mkCtx 0 0 0) [] rfl (by rfl) (by rfl)

/-- C5: when the destination differs from the source and the leave phase
suspends asynchronously (no callback error, no cancellation), `Event`
returns `AsyncError` wrapping nil with the state unchanged and the
transition staged; the following `Complete` returns nil and commits the
originally computed destination, clearing the pending marker. -/
theorem c5_async_suspend_then_complete [DecidableEq E] [DecidableEq S]
    (f : FSM E S) (ev : E) (dst : S) (t1 t2 : Ctx E S) (trB trL : List CbTag)
    (h1 : f.pending = none)
    (h2 : lookupTrans f.transitions (ev, f.current) = some dst)
    (h3 : ¬f.current = dst)
    (h4 : beforePhase f (mkCtx ev f.current dst) = (t1, none, trB))
    (h5 : leavePhase f t1 = (t2, some (Err.asyncSuspended none), trL)) :
    (fireEvent f ev).2.1 = some (Err.asyncSuspended none) ∧
      (fireEvent f ev).1.current = f.current ∧
      (fireEvent f ev).1.pending = some (dst, t2) ∧
      (complete (fireEvent f ev).1).2.1 = none ∧
      (complete (fireEvent f ev).1).1.current = dst ∧
      (complete (fireEvent f ev).1).1.pending = none := by
  have hfe : fireEvent f ev =
      ({ f with pending := some (dst, t2) }, some (Err.asyncSuspended none),
        trB ++ trL) := by
    rw [fireEvent_found h1 h2]
    unfold fireFound
    rw [h4]
    simp only [if_neg h3]
    rw [h5]
    simp [Err.isCanceled]
  have hp : (fireEvent f ev).1.pending = some (dst, t2) := by rw [hfe]
  exact ⟨by rw [hfe], by rw [hfe], hp, (complete_some hp).1,
    (complete_some hp).2.1, (complete_some hp).2.2⟩

/-- Witness for C5 at `asyncFSM`: suspend on event 0, then complete into
state 1. -/
theorem c5_async_suspend_then_complete_witness :
    (fireEvent asyncFSM 0).2.1 = some (Err.asyncSuspended none) ∧
      (fireEvent asyncFSM 0).1.current = asyncFSM.current ∧
      (fireEvent asyncFSM 0).1.pending =
        some (1, (leavePhase asyncFSM (mkCtx 0 0 1)).1) ∧
      (complete (fireEvent asyncFSM 0).1).2.1 = none ∧
      (complete (fireEvent asyncFSM 0).1).1.current = 1 ∧
      (complete (fireEvent asyncFSM 0).1).1.pending = none :=
  c5_async_suspend_then_complete asyncFSM 0 1 (mkCtx 0 0 1)
    (leavePhase asyncFSM (mkCtx 0 0 1)).1 [] [CbTag.leaveSpec]
    rfl (by rfl) (by decide) (by rfl) (by rfl)

/-- C1 counterexample: the leave-state callback of `leaveErrFSM` returns
the custom error `user 5`.  `Event` does return that error with the
state unchanged, but — contrary to the claim — the staged transition
remains pending: an immediately following `Event` of the valid event 0
fails with `InTransitionError`, and a following `Complete` returns nil
(not `NotInTransitionError`) and commits the staged destination. -/
theorem c1_counterexample :
    (fireEvent leaveErrFSM 0).2.1 = some (Err.user 5) ∧
      (fireEvent leaveErrFSM 0).1.current = 0 ∧
      (fireEvent leaveErrFSM 0).1.pending.isSome = true ∧
      (fireEvent (fireEvent leaveErrFSM 0).1 0).2.1 =
        some (Err.inTransition 0) ∧
      (complete (fireEvent leaveErrFSM 0).1).2.1 = none ∧
      (complete (fireEvent leaveErrFSM 0).1).1.current = 1 :=
  ⟨rfl, rfl, rfl, rfl, rfl, rfl⟩

/-- C1 (amended): a leave-state callback function returning a non-nil
error other than the cancellation sentinel makes `Event` return that
error immediately with the current state unchanged, but the staged
transition REMAINS pending: every following `Event` fails with
`InTransitionError` and a following `Complete` returns nil and commits
the originally computed destination. -/
theorem c1_leave_error_keeps_pending [DecidableEq E] [DecidableEq S]
    (f : FSM E S) (ev ev2 : E) (dst : S) (t1 : Ctx E S) (trB : List CbTag)
    (fn : TransitionFunc E S) (e : Err E S)
    (h1 : f.pending = none)
    (h2 : lookupTrans f.transitions (ev, f.current) = some dst)
    (h3 : ¬f.current = dst)
    (h4 : beforePhase f (mkCtx ev f.current dst) = (t1, none, trB))
    (h5 : f.leaveC f.current = some fn)
    (h6 : (fn t1).ret = some e)
    (h7 : e.isCanceled = false) :
    (fireEvent f ev).2.1 = some e ∧
      (fireEvent f ev).1.current = f.current ∧
      (fireEvent f ev).1.pending = some (dst, (runCb fn t1).1) ∧
      (fireEvent (fireEvent f ev).1 ev2).2.1 = some (Err.inTransition ev2) ∧
      (complete (fireEvent f ev).1).2.1 = none ∧
      (complete (fireEvent f ev).1).1.current = dst := by
  have hl : leavePhase f t1 = ((runCb fn t1).1, some e, [CbTag.leaveSpec]) := by
    unfold leavePhase
    rw [h5]
    have h2' : (runCb fn t1).2 = some e := by simp [runCb, h6]
    rcases hr : runCb fn t1 with ⟨tl, r⟩
    rw [hr] at h2'
    subst h2'
    simp [hr]
  have hfe : fireEvent f ev =
      ({ f with pending := some (dst, (runCb fn t1).1) }, some e,
        trB ++ [CbTag.leaveSpec]) := by
    rw [fireEvent_found h1 h2]
    unfold fireFound
    rw [h4]
    simp only [if_neg h3]
    rw [hl]
    simp [h7]
  have hp : (fireEvent f ev).1.pending = some (dst, (runCb fn t1).1) := by
    rw [hfe]
  refine ⟨by rw [hfe], by rw [hfe], hp, ?_, (complete_some hp).1,
    (complete_some hp).2.1⟩
  have hps : (fireEvent f ev).1.pending.isSome = true := by rw [hp]; rfl
  rw [fireEvent_pending hps]

/-- Witness for the amended C1 at `leaveErrFSM`. -/
theorem c1_leave_error_keeps_pending_witness :
    (fireEvent leaveErrFSM 0).2.1 = some (Err.user 5) ∧
      (fireEvent leaveErrFSM 0).1.current = leaveErrFSM.current ∧
      (fireEvent leaveErrFSM 0).1.pending =
        some (1, (runCb (fun _ => ⟨false, false, some (Err.user 5)⟩)
          (mkCtx 0 0 1)).1) ∧
      (fireEvent (fireEvent leaveErrFSM 0).1 7).2.1 =
        some (Err.inTransition 7) ∧
      (complete (fireEvent leaveErrFSM 0).1).2.1 = none ∧
      (complete (fireEvent leaveErrFSM 0).1).1.current = 1 :=
  c1_leave_error_keeps_pending leaveErrFSM 0 7 1 (mkCtx 0 0 1) []
    (fun _ => ⟨false, false, some (Err.user 5)⟩) (Err.user 5)
    rfl (by rfl) (by decide) (by rfl) (by rfl) rfl rfl

/-- C2: evaluation at the failing input (the setup of the repository's
own `TestCallbackError`).  The after-event callback of `afterErrFSM`
returns `user 7`, yet `Event` returns nil: `defaultTransitioner.Transition`
calls `f.transition()` and discards its result, so the enter/after-phase
error never reaches the caller — the test expects it returned.  The
committed state change is indeed kept (current = 1) and the after
callback did run. -/
theorem c2_after_error_swallowed :
    (fireEvent afterErrFSM 0).2.1 = none ∧
      (fireEvent afterErrFSM 0).1.current = 1 ∧
      (fireEvent afterErrFSM 0).2.2 = [CbTag.afterSpec] :=
  ⟨rfl, rfl, rfl⟩

/-- C3 counterexample: in `asyncFSM` the specific leave-state callback
calls `SetAsync()`, returns nil and sets no error on the context, and a
generic leave-state callback is registered — yet the generic leave-state
callback is not invoked (the trace of the whole call is just the
specific leave slot), contradicting the claim's "in particular" case. -/
theorem c3_counterexample :
    asyncFSM.leaveStateG.isSome = true ∧
      (fireEvent asyncFSM 0).2.2 = [CbTag.leaveSpec] ∧
      CbTag.leaveGen ∉ (fireEvent asyncFSM 0).2.2 ∧
      (fireEvent asyncFSM 0).2.1 = some (Err.asyncSuspended none) :=
  ⟨rfl, rfl, by decide, rfl⟩

/-- C3 (amended): in every phase the specific callback runs before the
generic one, and the trace of each phase is characterised exactly.  The
generic callback runs iff it is registered and the specific slot did
not short-circuit first: in the before and leave phases the specific
callback short-circuits by returning an error or by leaving an error on
the context, in the leave phase also by setting the async flag, and in
the enter and after phases only by returning an error.  Relative to the
original claim the only change is the leave-phase async case: a
specific leave-state callback that calls `SetAsync()` (returning nil
and setting no error) does suppress the generic leave-state callback. -/
theorem c3_dispatch_order (f : FSM E S) (t : Ctx E S) :
    ((beforePhase f t).2.2 =
      match f.beforeC t.event with
      | none => if f.beforeEventG.isSome then [CbTag.beforeGen] else []
      | some fn =>
          if (runCb fn t).2.isNone && (runCb fn t).1.err.isNone then
            CbTag.beforeSpec ::
              (if f.beforeEventG.isSome then [CbTag.beforeGen] else [])
          else [CbTag.beforeSpec]) ∧
    ((leavePhase f t).2.2 =
      match f.leaveC f.current with
      | none => if f.leaveStateG.isSome then [CbTag.leaveGen] else []
      | some fn =>
          if (runCb fn t).2.isNone && (runCb fn t).1.err.isNone &&
              !(runCb fn t).1.async then
            CbTag.leaveSpec ::
              (if f.leaveStateG.isSome then [CbTag.leaveGen] else [])
          else [CbTag.leaveSpec]) ∧
    ((enterPhase f t).2.2 =
      match f.enterC f.current with
      | none => if f.enterStateG.isSome then [CbTag.enterGen] else []
      | some fn =>
          if (runCb fn t).2.isNone then
            CbTag.enterSpec ::
              (if f.enterStateG.isSome then [CbTag.enterGen] else [])
          else [CbTag.enterSpec]) ∧
    ((afterPhase f t).2.2 =
      match f.afterC t.event with
      | none => if f.afterEventG.isSome then [CbTag.afterGen] else []
      | some fn =>
          if (runCb fn t).2.isNone then
            CbTag.afterSpec ::
              (if f.afterEventG.isSome then [CbTag.afterGen] else [])
          else [CbTag.afterSpec]) := by
  have hbg : ∀ t' tr, (beforeGeneric f t' tr).2.2 =
      tr ++ (if f.beforeEventG.isSome then [CbTag.beforeGen] else []) := by
    intro t' tr
    unfold beforeGeneric
    rcases hg : f.beforeEventG with _ | fn
    · simp
    · rcases hr : runCb fn t' with ⟨t1, r⟩
      rcases r with _ | e
      · rcases herr : t1.err with _ | e <;> simp [hr, herr]
      · simp [hr]
  have hlg : ∀ t' tr, (leaveGeneric f t' tr).2.2 =
      tr ++ (if f.leaveStateG.isSome then [CbTag.leaveGen] else []) := by
    intro t' tr
    unfold leaveGeneric
    rcases hg : f.leaveStateG with _ | fn
    · simp
    · rcases hr : runCb fn t' with ⟨t1, r⟩
      rcases r with _ | e
      · rcases herr : t1.err with _ | e
        · cases hasy : t1.async <;> simp [hr, herr, hasy]
        · simp [hr, herr]
      · simp [hr]
  have heg : ∀ t' tr, (enterGeneric f t' tr).2.2 =
      tr ++ (if f.enterStateG.isSome then [CbTag.enterGen] else []) := by
    intro t' tr
    unfold enterGeneric
    rcases hg : f.enterStateG with _ | fn
    · simp
    · rcases hr : runCb fn t' with ⟨t1, r⟩
      rcases r with _ | e <;> simp [hr]
  have hag : ∀ t' tr, (afterGeneric f t' tr).2.2 =
      tr ++ (if f.afterEventG.isSome then [CbTag.afterGen] else []) := by
    intro t' tr
    unfold afterGeneric
    rcases hg : f.afterEventG with _ | fn
    · simp
    · rcases hr : runCb fn t' with ⟨t1, r⟩
      rcases r with _ | e <;> simp [hr]
  refine ⟨?_, ?_, ?_, ?_⟩
  · unfold beforePhase
    rcases hc : f.beforeC t.event with _ | fn
    · simpa using hbg t []
    · rcases hr : runCb fn t with ⟨t1, r⟩
      rcases r with _ | e
      · rcases herr : t1.err with _ | e
        · simpa [hr, herr] using hbg t1 [CbTag.beforeSpec]
        · simp [hr, herr]
      · simp [hr]
  · unfold leavePhase
    rcases hc : f.leaveC f.current with _ | fn
    · simpa using hlg t []
    · rcases hr : runCb fn t with ⟨t1, r⟩
      rcases r with _ | e
      · rcases herr : t1.err with _ | e
        · rcases hasy : t1.async with _ | _
          · simpa [hr, herr, hasy] using hlg t1 [CbTag.leaveSpec]
          · simp [hr, herr, hasy]
        · simp [hr, herr]
      · simp [hr]
  · unfold enterPhase
    rcases hc : f.enterC f.current with _ | fn
    · simpa using heg t []
    · rcases hr : runCb fn t with ⟨t1, r⟩
      rcases r with _ | e
      · simpa [hr] using heg t1 [CbTag.enterSpec]
      · simp [hr]
  · unfold afterPhase
    rcases hc : f.afterC t.event with _ | fn
    · simpa using hag t []
    · rcases hr : runCb fn t with ⟨t1, r⟩
      rcases r with _ | e
      · simpa [hr] using hag t1 [CbTag.afterSpec]
      · simp [hr]
